import Mathlib

set_option autoImplicit false
set_option maxHeartbeats 1000000
set_option maxRecDepth 8000

/-!
Shallow embedding of src/function_app.py: an Azure Durable Functions app with
a fan-out/fan-in orchestrator (hello_orchestrator), a timer-driven producer
that copies table records in status New onto a storage queue
(create_message_timer), a queue-triggered consumer that marks records as
Processed and enriches them (process_message), and a timer-driven synthetic
workload generator that writes a batch of New records (generate_random_messages).

External collaborators (the Azure Table/Queue SDKs, the OpenAI call and the
durable orchestration host) are modelled by explicit state passing and oracle
functions; everything else is translated directly from the source.
-/

/-- A persisted Azure Table entity (record) as the app uses it. Every field the
code reads is accessed with Python dict .get, so each field is optional. -/
structure Entity where
  PartitionKey : Option String := none
  RowKey : Option String := none
  BugId : Option String := none
  Status : Option String := none
  Joke : Option String := none
  JokeContext : Option String := none
  Created_at : Option String := none
  Updated_at : Option String := none
deriving DecidableEq

/-- A JSON object with string values. Every JSON object this app builds
(the queue message of create_message_timer, source lines 152-157) maps string
keys to string values, so a flat association list embeds them faithfully. -/
abbrev JObj := List (String × String)

/-- Python dict .get on a message object: the first binding of the key,
none when the key is absent (no exception is raised). -/
def jobjGet (m : JObj) (k : String) : Option String :=
  (m.find? (fun p => p.1 == k)).map (fun p => p.2)

/-- The key set of a JSON object, in insertion order. -/
def jsonKeys (m : JObj) : List String := m.map (fun p => p.1)

/-- Escaping of one character inside a JSON string literal, as json.dumps
performs it for the characters that occur in this app's data. -/
def jsonEscapeChar (c : Char) : String :=
  if c = '"' then "\\\""
  else if c = '\\' then "\\\\"
  else if c = '\n' then "\\n"
  else if c = '\r' then "\\r"
  else if c = '\t' then "\\t"
  else String.singleton c

/-- Escaping of a JSON string body. -/
def jsonEscape (s : String) : String :=
  String.join (s.toList.map jsonEscapeChar)

/-- A JSON string literal. -/
def jsonDumpsStr (s : String) : String := "\"" ++ jsonEscape s ++ "\""

/-- The comma-separated key-value pairs of json.dumps with its default
separators. -/
def jsonDumpsPairs : JObj → String
  | [] => ""
  | [(k, v)] => jsonDumpsStr k ++ ": " ++ jsonDumpsStr v
  | (k, v) :: rest => jsonDumpsStr k ++ ": " ++ jsonDumpsStr v ++ ", " ++ jsonDumpsPairs rest

/-- json.dumps of a string-valued JSON object. -/
def jsonDumps (m : JObj) : String := "\x7b" ++ jsonDumpsPairs m ++ "\x7d"

/-- UTF-8 encoding of one character (str.encode of Python), bytes as Nat. -/
def utf8Char (c : Char) : List Nat :=
  let n := c.toNat
  if n < 128 then [n]
  else if n < 2048 then [192 + n / 64, 128 + n % 64]
  else if n < 65536 then [224 + n / 4096, 128 + (n / 64) % 64, 128 + n % 64]
  else [240 + n / 262144, 128 + (n / 4096) % 64, 128 + (n / 64) % 64, 128 + n % 64]

/-- UTF-8 encoding of a string. -/
def utf8Encode (s : String) : List Nat :=
  (s.toList.map utf8Char).flatten

/-- The base64 alphabet of RFC 4648. -/
def b64Alphabet : List Char :=
  "ABCDEFGHIJKLMNOPQRSTUVWXYZabcdefghijklmnopqrstuvwxyz0123456789+/".toList

/-- One base64 digit. -/
def b64Char (n : Nat) : Char := b64Alphabet.getD n '?'

/-- Base64 encoding of a byte sequence, as BinaryBase64EncodePolicy applies it
to the queue message body. -/
def base64Encode : List Nat → String
  | [] => ""
  | [a] =>
    String.mk [b64Char (a / 4), b64Char ((a % 4) * 16)] ++ "=="
  | [a, b] =>
    String.mk [b64Char (a / 4), b64Char ((a % 4) * 16 + b / 16),
      b64Char ((b % 16) * 4)] ++ "="
  | a :: b :: c :: rest =>
    String.mk [b64Char (a / 4), b64Char ((a % 4) * 16 + b / 16),
      b64Char ((b % 16) * 4 + c / 64), b64Char (c % 64)] ++ base64Encode rest

/-- table_client.get_entity: the first entity of the table whose PartitionKey
and RowKey equal the requested keys. -/
def findEntity (t : List Entity) (pk rk : String) : Option Entity :=
  t.find? (fun e => e.PartitionKey == some pk && e.RowKey == some rk)

/-- Whether two entities carry the same (PartitionKey, RowKey) identity. -/
def keyMatch (x e : Entity) : Bool :=
  x.PartitionKey == e.PartitionKey && x.RowKey == e.RowKey

/-- table_client.update_entity with UpdateMode.REPLACE: the stored entity with
the same identity is replaced wholesale by the new field set. -/
def updateEntity (t : List Entity) (e : Entity) : List Entity :=
  t.map (fun x => if keyMatch x e then e else x)

/-- Whether a record's Status is New (the query filter string
"Status eq 'New'" of source line 144). -/
def isNew (e : Entity) : Bool := e.Status == some "New"

/-- table_client.query_entities("Status eq 'New'"): all records whose Status
equals New at query time. -/
def queryNewEntities (t : List Entity) : List Entity := t.filter isNew

/-- The message dictionary create_message_timer builds for one entity
(source lines 145-157): the four fields read with .get and their defaults. -/
def messageJObj (e : Entity) : JObj :=
  [("PartitionKey", e.PartitionKey.getD "UnknownPartitionKey"),
   ("RowKey", e.RowKey.getD "UnknownRowKey"),
   ("BugId", e.BugId.getD "UnknownBugId"),
   ("Joke", e.Joke.getD "UnknownJoke")]

/-- The message objects create_message_timer builds in one invocation: one per
record in status New. -/
def create_message_objs (t : List Entity) : List JObj :=
  (queryNewEntities t).map messageJObj

/-- The transport encoding of one queue message (source lines 160-162):
json.dumps, then encode to UTF-8 bytes, then the base64 encode policy. -/
def encodeQueueMessage (m : JObj) : String :=
  base64Encode (utf8Encode (jsonDumps m))

/-- create_message_timer (source lines 109-169), restricted to its externally
visible effect: the list of queue message payloads sent in one invocation,
one per record in status New, in table order. The function writes nothing to
the table. -/
def create_message_timer (t : List Entity) : List String :=
  (create_message_objs t).map encodeQueueMessage

/-- The errors process_message can surface per message. validationError is the
parse-time rejection the design notes of the spec postulate; notFound is a
failed entity lookup; enrichFailed is a failed enrichment call. -/
inductive ProcError where
  | validationError
  | notFound
  | enrichFailed (msg : String)
deriving DecidableEq

/-- table_client.get_entity as process_message calls it, with the keys taken
straight from dict .get: a missing (None) key cannot address any stored
entity, so the lookup fails. -/
def getEntity (t : List Entity) (pk? rk? : Option String) : Option Entity :=
  match pk?, rk? with
  | some pk, some rk => findEntity t pk rk
  | _, _ => none

/-- process_message (source lines 174-240): parse the message dict with .get,
fetch the record, set Status to Processed in memory, call the enrichment
oracle (summarize_text, an external OpenAI call modelled as a function from
the raw Joke argument to a result or failure), stamp JokeContext and
Updated_at, and only then write the record back with REPLACE. An exception at
any step propagates and nothing is written. -/
def process_message (summarize : Option String → Except String String)
    (now : String) (msg : JObj) (t : List Entity) :
    Except ProcError (List Entity) :=
  let pk? := jobjGet msg "PartitionKey"
  let rk? := jobjGet msg "RowKey"
  let joke? := jobjGet msg "Joke"
  match getEntity t pk? rk? with
  | none => Except.error ProcError.notFound
  | some e =>
    let e1 : Entity := { e with Status := some "Processed" }
    match summarize joke? with
    | Except.error m => Except.error (ProcError.enrichFailed m)
    | Except.ok ctx =>
      let e2 : Entity := { e1 with JokeContext := some ctx, Updated_at := some now }
      Except.ok (updateEntity t e2)

/-- The field set process_message writes back for a fetched record: Status
set to Processed, JokeContext set to the enrichment result, Updated_at
stamped; every other field kept. -/
def processedEntity (e : Entity) (ctx now : String) : Entity :=
  { e with
    Status := some "Processed"
    JokeContext := some ctx
    Updated_at := some now }

/-- The table after one process_message delivery: updated on success,
unchanged when the handler raised before the write. -/
def processEffect (summarize : Option String → Except String String)
    (now : String) (msg : JObj) (t : List Entity) : List Entity :=
  match process_message summarize now msg t with
  | Except.ok t' => t'
  | Except.error _ => t

/-- One record generate_random_messages prepares (source lines 280-287):
fresh RowKey, random BugId, generated Joke, Status New, shared PartitionKey. -/
def mkWorkItem (pk rk bugId joke createdAt : String) : Entity :=
  { PartitionKey := some pk, RowKey := some rk, BugId := some bugId,
    Status := some "New", Joke := some joke, Created_at := some createdAt }

/-- The batch-building loop of generate_random_messages (source lines
272-290): iteration i draws row key rks i and bug id bugIds i and calls the
joke oracle; the first oracle failure aborts the whole invocation before
anything is submitted. -/
def genBatch (pk : String) (rks bugIds : Nat → String)
    (jokeGen : Nat → Except String String) (createdAt : String) :
    Nat → Nat → Except String (List Entity)
  | _, 0 => Except.ok []
  | i, n + 1 =>
    match jokeGen i with
    | Except.error m => Except.error m
    | Except.ok joke =>
      match genBatch pk rks bugIds jokeGen createdAt (i + 1) n with
      | Except.error m => Except.error m
      | Except.ok rest =>
        Except.ok (mkWorkItem pk (rks i) (bugIds i) joke createdAt :: rest)

/-- generate_random_messages (source lines 247-297): build the batch of k
records under one invocation-wide partition key, then submit_transaction
appends them to the table in a single all-or-nothing write. -/
def generate_random_messages (pk : String) (rks bugIds : Nat → String)
    (jokeGen : Nat → Except String String) (createdAt : String) (k : Nat)
    (t : List Entity) : Except String (List Entity) :=
  match genBatch pk rks bugIds jokeGen createdAt 0 k with
  | Except.error m => Except.error m
  | Except.ok batch => Except.ok (t ++ batch)

/-- The table after one generate_random_messages invocation: extended by the
batch on success, unchanged when the invocation raised before the submit. -/
def genEffect (pk : String) (rks bugIds : Nat → String)
    (jokeGen : Nat → Except String String) (createdAt : String) (k : Nat)
    (t : List Entity) : List Entity :=
  match generate_random_messages pk rks bugIds jokeGen createdAt k t with
  | Except.ok t' => t'
  | Except.error _ => t

/-- The result one activity task reports back to the orchestrator. -/
inductive TaskResult where
  | success (value : Int)
  | failure (msg : String)
deriving DecidableEq

/-- One dispatch decision of the orchestrator: context.call_activity with an
activity name and an input. -/
structure TaskCall where
  activity : String
  input : Nat
deriving DecidableEq

/-- The number of activity tasks hello_orchestrator fans out
(range(5000), source line 62). -/
def taskCount : Nat := 5000

/-- The dispatch decisions of hello_orchestrator (source lines 60-63): one
call_activity of heavy_computation per input in range(5000), in order. The
list is a pure constant: the orchestration logic reads neither history, nor
randomness, nor the clock. -/
def hello_orchestrator_dispatch : List TaskCall :=
  (List.range taskCount).map (fun i => { activity := "heavy_computation", input := i })

/-- Modelled from the spec: the durable host's replayed history of prior
completions, one event (task slot index, result) per completed task, in
arrival order. The completion of slot i is the first event with key i. -/
def lookupSlot (history : List (Nat × TaskResult)) (i : Nat) : Option TaskResult :=
  (history.find? (fun p => p.1 == i)).map (fun p => p.2)

/-- Modelled from the spec: collect a completion for every listed slot;
none as soon as any slot is still missing one. -/
def collectAll (f : Nat → Option TaskResult) : List Nat → Option (List TaskResult)
  | [] => some []
  | i :: is =>
    match f i, collectAll f is with
    | some r, some rs => some (r :: rs)
    | _, _ => none

/-- Modelled from the spec: context.task_all over n dispatched task slots.
The fan-in yields the n results in slot order once every slot has a
completion in the replayed history, and blocks (none) until then. -/
def task_all (n : Nat) (history : List (Nat × TaskResult)) :
    Option (List TaskResult) :=
  collectAll (lookupSlot history) (List.range n)

/-- One replay of hello_orchestrator against a replayed history: the dispatch
decisions the body re-issues, and the fan-in outcome at its single yield
point (source line 66). -/
def hello_orchestrator_run (history : List (Nat × TaskResult)) :
    List TaskCall × Option (List TaskResult) :=
  (hello_orchestrator_dispatch,
    task_all hello_orchestrator_dispatch.length history)

/-- The whole producer/consumer system state: the table and the queue. -/
structure SysState where
  table : List Entity
  queue : List String

/-- The operations of the system that touch the persisted table or the
queue: one generator invocation, one producer timer invocation, one consumer
delivery. -/
inductive SysOp where
  | generate (pk : String) (rks bugIds : Nat → String)
      (jokeGen : Nat → Except String String) (createdAt : String) (k : Nat)
  | produceTimer
  | processMsg (summarize : Option String → Except String String)
      (now : String) (msg : JObj)

/-- The effect of one operation on the system state. A raised exception in
generate or processMsg reaches the host before any write, so the state is
unchanged on failure. -/
def applyOp (op : SysOp) (s : SysState) : SysState :=
  match op with
  | SysOp.generate pk rks bugIds jokeGen createdAt k =>
    { s with table := genEffect pk rks bugIds jokeGen createdAt k s.table }
  | SysOp.produceTimer =>
    { s with queue := s.queue ++ create_message_timer s.table }
  | SysOp.processMsg summarize now msg =>
    { s with table := processEffect summarize now msg s.table }

/-- The Status of the record under a given identity, when it exists. -/
def statusOf (t : List Entity) (pk rk : String) : Option (Option String) :=
  (findEntity t pk rk).map (fun e => e.Status)

/-- The (Status, JokeContext) projection of the record under a given
identity, when it exists. -/
def statusCtx (t : List Entity) (pk rk : String) :
    Option (Option String × Option String) :=
  (findEntity t pk rk).map (fun e => (e.Status, e.JokeContext))

/-- Every record of the table carries status New or Processed: the invariant
every reachable table of the system satisfies. -/
def StatusInv (t : List Entity) : Prop :=
  ∀ e ∈ t, e.Status = some "New" ∨ e.Status = some "Processed"

/-- The allowed evolution of one identity's stored status across one
operation: unchanged, freshly created as New, or flipped New to Processed. -/
def StatusMono (before after : Option (Option String)) : Prop :=
  after = before ∨ (before = none ∧ after = some (some "New"))
    ∨ (before = some (some "New") ∧ after = some (some "Processed"))

/-- A concrete stored record in status New, used to evaluate the theorems. -/
def sampleEntityNew : Entity :=
  { PartitionKey := some "P1", RowKey := some "R1", BugId := some "123",
    Status := some "New", Joke := some "X" }

/-- A concrete stored record already in status Processed. -/
def sampleEntityProcessed : Entity :=
  { PartitionKey := some "P2", RowKey := some "R2", BugId := some "124",
    Status := some "Processed", Joke := some "Y" }

/-- A concrete stored record in status New with every other field absent. -/
def sampleEntityBare : Entity := { Status := some "New" }

/-- A concrete table holding all three sample records. -/
def sampleTable : List Entity :=
  [sampleEntityNew, sampleEntityProcessed, sampleEntityBare]

/-- The well-formed queue message addressing sampleEntityNew. -/
def sampleMsg : JObj :=
  [("PartitionKey", "P1"), ("RowKey", "R1"), ("BugId", "123"), ("Joke", "X")]

/-- A malformed queue message: both identity keys are missing. -/
def sampleMsgMissingKeys : JObj := [("BugId", "123")]

/-- An enrichment oracle whose external call always succeeds. -/
def okSummarize : Option String → Except String String :=
  fun _ => Except.ok "ctx"

/-- An enrichment oracle whose external call always fails. -/
def failSummarize : Option String → Except String String :=
  fun _ => Except.error "boom"

/-- The record sampleEntityNew becomes after one successful process_message
delivery of sampleMsg at time n1. -/
def sampleProcessedEntity : Entity :=
  { PartitionKey := some "P1", RowKey := some "R1", BugId := some "123",
    Status := some "Processed", Joke := some "X", JokeContext := some "ctx",
    Created_at := none, Updated_at := some "n1" }

/-- A replayed history in which every one of the 5000 task slots has
reported a completion. -/
def sampleHistory : List (Nat × TaskResult) :=
  (List.range taskCount).map (fun i => (i, TaskResult.success 0))

/-- A concrete row-key supply for the generator, injective below 2. -/
def sampleRks : Nat → String := fun i => if i = 0 then "r0" else "r1"

/-- A concrete bug-id supply for the generator. -/
def sampleBugIds : Nat → String := fun _ => "42"

/-- A joke oracle whose external call always succeeds. -/
def sampleJokeGen : Nat → Except String String := fun _ => Except.ok "haha"

/-- A joke oracle whose external call fails on the second item. -/
def failJokeGen : Nat → Except String String :=
  fun i => if i = 1 then Except.error "apifail" else Except.ok "haha"

/-! Helper lemmas shared by the claim theorems. -/

theorem find?_map_of_pred_inv {α : Type} (p : α → Bool) (f : α → α) (l : List α)
    (h : ∀ x ∈ l, p (f x) = p x) :
    (l.map f).find? p = (l.find? p).map f := by
  induction l with
  | nil => rfl
  | cons a l ih =>
    have ha : p (f a) = p a := h a (List.mem_cons_self a l)
    cases hp : p a with
    | true =>
      rw [List.map_cons, List.find?_cons_of_pos _ (by rw [ha, hp]),
        List.find?_cons_of_pos _ hp]
      rfl
    | false =>
      rw [List.map_cons, List.find?_cons_of_neg _ (by simp [ha, hp]),
        List.find?_cons_of_neg _ (by simp [hp])]
      exact ih (fun x hx => h x (List.mem_cons_of_mem a hx))

theorem keyMatch_eq_true {x e : Entity} :
    keyMatch x e = true ↔ x.PartitionKey = e.PartitionKey ∧ x.RowKey = e.RowKey := by
  simp [keyMatch]

theorem findEntity_updateEntity (t : List Entity) (u : Entity) (pk rk : String) :
    findEntity (updateEntity t u) pk rk =
      (findEntity t pk rk).map (fun x => if keyMatch x u then u else x) := by
  unfold findEntity updateEntity
  apply find?_map_of_pred_inv
  intro x _
  by_cases hk : keyMatch x u = true
  · obtain ⟨h1, h2⟩ := keyMatch_eq_true.mp hk
    simp [hk, h1, h2]
  · simp [hk]

theorem eq_of_mem_updateEntity {t : List Entity} {u x : Entity}
    (hx : x ∈ updateEntity t u) (hk : keyMatch x u = true) : x = u := by
  unfold updateEntity at hx
  obtain ⟨y, hy, hfy⟩ := List.mem_map.mp hx
  by_cases hky : keyMatch y u = true
  · simp [hky] at hfy
    exact hfy.symm
  · simp [hky] at hfy
    subst hfy
    exact absurd hk hky

theorem collectAll_length (f : Nat → Option TaskResult) (is : List Nat) :
    ∀ rs, collectAll f is = some rs → rs.length = is.length := by
  induction is with
  | nil =>
    intro rs h
    simp [collectAll] at h
    subst h
    rfl
  | cons i is ih =>
    intro rs h
    simp only [collectAll] at h
    cases hf : f i <;> rw [hf] at h
    · simp at h
    · cases hc : collectAll f is <;> rw [hc] at h
      · simp at h
      · simp at h
        subst h
        simp [ih _ hc]

theorem collectAll_of_all_some (f : Nat → Option TaskResult) (is : List Nat)
    (h : ∀ i ∈ is, (f i).isSome = true) :
    ∃ rs, collectAll f is = some rs := by
  induction is with
  | nil => exact ⟨[], rfl⟩
  | cons i is ih =>
    obtain ⟨r, hr⟩ := Option.isSome_iff_exists.mp (h i (List.mem_cons_self i is))
    obtain ⟨rs, hrs⟩ := ih (fun j hj => h j (List.mem_cons_of_mem i hj))
    exact ⟨r :: rs, by simp [collectAll, hr, hrs]⟩

theorem collectAll_eq_none (f : Nat → Option TaskResult) (is : List Nat)
    (i : Nat) (hi : i ∈ is) (hf : f i = none) :
    collectAll f is = none := by
  induction is with
  | nil => cases hi
  | cons j is ih =>
    rcases List.mem_cons.mp hi with h | h
    · subst h
      simp [collectAll, hf]
    · cases hfj : f j <;> simp [collectAll, hfj, ih h]

theorem collectAll_congr {f g : Nat → Option TaskResult} (is : List Nat)
    (h : ∀ i ∈ is, f i = g i) : collectAll f is = collectAll g is := by
  induction is with
  | nil => rfl
  | cons i is ih =>
    simp only [collectAll, h i (List.mem_cons_self i is),
      ih (fun j hj => h j (List.mem_cons_of_mem i hj))]

theorem mem_of_lookupSlot_eq_some {l : List (Nat × TaskResult)} {i : Nat}
    {r : TaskResult} (h : lookupSlot l i = some r) : (i, r) ∈ l := by
  unfold lookupSlot at h
  cases hf : l.find? (fun p => p.1 == i) <;> rw [hf] at h
  · cases h
  · rename_i q
    have hq := List.find?_some hf
    have hmem := List.mem_of_find?_eq_some hf
    simp at h hq
    obtain ⟨q1, q2⟩ := q
    simp at h hq
    subst h
    subst hq
    exact hmem

theorem lookupSlot_eq_some_of_mem {l : List (Nat × TaskResult)}
    (hnd : (l.map Prod.fst).Nodup) {i : Nat} {r : TaskResult}
    (h : (i, r) ∈ l) : lookupSlot l i = some r := by
  induction l with
  | nil => cases h
  | cons q l ih =>
    rw [List.map_cons] at hnd
    have hnd2 := List.nodup_cons.mp hnd
    rcases List.mem_cons.mp h with h1 | h1
    · subst h1
      unfold lookupSlot
      rw [List.find?_cons_of_pos _ (by simp)]
      rfl
    · have hq : (q.1 == i) = false := by
        have hin : i ∈ l.map Prod.fst := List.mem_map.mpr ⟨(i, r), h1, rfl⟩
        simp only [beq_eq_false_iff_ne, ne_eq]
        intro he
        rw [he] at hnd2
        exact hnd2.1 hin
      unfold lookupSlot
      rw [List.find?_cons_of_neg _ (by simp [hq])]
      exact ih hnd2.2 h1

theorem lookupSlot_perm {l l' : List (Nat × TaskResult)}
    (hp : l.Perm l') (hnd : (l.map Prod.fst).Nodup) (i : Nat) :
    lookupSlot l i = lookupSlot l' i := by
  have hnd' : (l'.map Prod.fst).Nodup := ((hp.map Prod.fst).nodup_iff).mp hnd
  cases h1 : lookupSlot l i with
  | some r =>
    have hm := mem_of_lookupSlot_eq_some h1
    exact (lookupSlot_eq_some_of_mem hnd' (hp.mem_iff.mp hm)).symm
  | none =>
    cases h2 : lookupSlot l' i with
    | none => rfl
    | some r =>
      have hm := mem_of_lookupSlot_eq_some h2
      have := lookupSlot_eq_some_of_mem hnd (hp.mem_iff.mpr hm)
      rw [h1] at this
      cases this

theorem genBatch_ok_spec (pk : String) (rks bugIds : Nat → String)
    (jokeGen : Nat → Except String String) (createdAt : String) :
    ∀ (n i : Nat), (∀ j, j < n → ∃ v, jokeGen (i + j) = Except.ok v) →
    ∃ batch, genBatch pk rks bugIds jokeGen createdAt i n = Except.ok batch
      ∧ batch.length = n
      ∧ batch.map Entity.Status = List.replicate n (some "New")
      ∧ batch.map Entity.PartitionKey = List.replicate n (some pk)
      ∧ batch.map Entity.RowKey = (List.range' i n).map (fun j => some (rks j)) := by
  intro n
  induction n with
  | zero =>
    intro i _
    exact ⟨[], rfl, rfl, rfl, rfl, rfl⟩
  | succ n ih =>
    intro i h
    obtain ⟨v, hv⟩ := h 0 (Nat.succ_pos n)
    have hv' : jokeGen i = Except.ok v := by simpa using hv
    obtain ⟨batch, hb, hlen, hst, hpk, hrk⟩ := ih (i + 1) (fun j hj => by
      have heq : (i + 1) + j = i + (j + 1) := by omega
      rw [heq]
      exact h (j + 1) (Nat.succ_lt_succ hj))
    refine ⟨mkWorkItem pk (rks i) (bugIds i) v createdAt :: batch, ?_, ?_, ?_, ?_, ?_⟩
    · simp [genBatch, hv', hb]
    · simp [hlen]
    · simp [mkWorkItem, hst, List.replicate_succ]
    · simp [mkWorkItem, hpk, List.replicate_succ]
    · simp [mkWorkItem, hrk, List.range'_succ]

theorem genBatch_err (pk : String) (rks bugIds : Nat → String)
    (jokeGen : Nat → Except String String) (createdAt : String) :
    ∀ (n i : Nat), (∃ j, j < n ∧ ∀ v, jokeGen (i + j) ≠ Except.ok v) →
    ∃ m, genBatch pk rks bugIds jokeGen createdAt i n = Except.error m := by
  intro n
  induction n with
  | zero =>
    rintro i ⟨j, hj, _⟩
    omega
  | succ n ih =>
    rintro i ⟨j, hj, hfail⟩
    cases hg : jokeGen i with
    | error m => exact ⟨m, by simp [genBatch, hg]⟩
    | ok v =>
      have hj0 : j ≠ 0 := by
        intro h0
        subst h0
        exact hfail v (by simpa using hg)
      obtain ⟨j', rfl⟩ := Nat.exists_eq_succ_of_ne_zero hj0
      obtain ⟨m, hm⟩ := ih (i + 1) ⟨j', by omega, fun v hv => hfail v (by
        have heq : i + (j' + 1) = (i + 1) + j' := by omega
        rw [heq]
        exact hv)⟩
      exact ⟨m, by simp [genBatch, hg, hm]⟩

theorem hello_orchestrator_dispatch_length :
    hello_orchestrator_dispatch.length = taskCount := by
  simp [hello_orchestrator_dispatch]

theorem mem_updateEntity_cases {t : List Entity} {u x : Entity}
    (hx : x ∈ updateEntity t u) : x = u ∨ x ∈ t := by
  unfold updateEntity at hx
  obtain ⟨y, hy, hfy⟩ := List.mem_map.mp hx
  by_cases hky : keyMatch y u = true
  · rw [if_pos hky] at hfy
    exact Or.inl hfy.symm
  · rw [if_neg hky] at hfy
    subst hfy
    exact Or.inr hy

theorem genBatch_mem_status (pk : String) (rks bugIds : Nat → String)
    (jokeGen : Nat → Except String String) (createdAt : String) :
    ∀ (n i : Nat) (batch : List Entity),
      genBatch pk rks bugIds jokeGen createdAt i n = Except.ok batch →
      ∀ e ∈ batch, e.Status = some "New" ∧ e.PartitionKey = some pk := by
  intro n
  induction n with
  | zero =>
    intro i batch h e he
    simp [genBatch] at h
    subst h
    cases he
  | succ n ih =>
    intro i batch h e he
    simp only [genBatch] at h
    cases hg : jokeGen i <;> rw [hg] at h
    · simp at h
    · cases hb : genBatch pk rks bugIds jokeGen createdAt (i + 1) n <;> rw [hb] at h
      · simp at h
      · simp at h
        subst h
        rcases List.mem_cons.mp he with h1 | h1
        · subst h1
          exact ⟨rfl, rfl⟩
        · exact ih (i + 1) _ hb e h1

theorem process_message_ok_shape (S : Option String → Except String String)
    (now : String) (msg : JObj) (t t' : List Entity)
    (h : process_message S now msg t = Except.ok t') :
    ∃ pk rk e ctx, jobjGet msg "PartitionKey" = some pk
      ∧ jobjGet msg "RowKey" = some rk
      ∧ findEntity t pk rk = some e
      ∧ S (jobjGet msg "Joke") = Except.ok ctx
      ∧ t' = updateEntity t (processedEntity e ctx now) := by
  simp only [process_message] at h
  cases hpk : jobjGet msg "PartitionKey" with
  | none =>
    rw [hpk] at h
    cases hrk : jobjGet msg "RowKey" <;> rw [hrk] at h <;> simp [getEntity] at h
  | some pk =>
    rw [hpk] at h
    cases hrk : jobjGet msg "RowKey" with
    | none =>
      rw [hrk] at h
      simp [getEntity] at h
    | some rk =>
      rw [hrk] at h
      simp only [getEntity] at h
      cases hfe : findEntity t pk rk <;> rw [hfe] at h
      · simp at h
      · rename_i e
        cases hs : S (jobjGet msg "Joke") <;> rw [hs] at h
        · simp at h
        · rename_i ctx
          simp only [Except.ok.injEq] at h
          refine ⟨pk, rk, e, ctx, rfl, rfl, hfe, rfl, ?_⟩
          rw [← h]
          rfl

/-- Claim C1: at the fan-in point of hello_orchestrator, task_all returns
exactly as many results as activity tasks were dispatched — here exactly
5000, one per dispatched heavy_computation task, success or failure — never
fewer; it stays blocked while any dispatched slot is missing a completion,
and its outcome is independent of the completion arrival order. -/
theorem hello_orchestrator_fan_in_complete (history : List (Nat × TaskResult)) :
    (∀ rs, (hello_orchestrator_run history).2 = some rs →
      rs.length = hello_orchestrator_dispatch.length)
    ∧ ((∀ i, i < taskCount → (lookupSlot history i).isSome = true) →
      ∃ rs, (hello_orchestrator_run history).2 = some rs
        ∧ rs.length = hello_orchestrator_dispatch.length ∧ rs.length = 5000)
    ∧ ((∃ i, i < taskCount ∧ lookupSlot history i = none) →
      (hello_orchestrator_run history).2 = none)
    ∧ (∀ history', (history.map Prod.fst).Nodup → history.Perm history' →
      (hello_orchestrator_run history).2 = (hello_orchestrator_run history').2) := by
  have hrun : ∀ h' : List (Nat × TaskResult), (hello_orchestrator_run h').2
      = collectAll (lookupSlot h') (List.range taskCount) := by
    intro h'
    simp [hello_orchestrator_run, task_all, hello_orchestrator_dispatch_length]
  refine ⟨?_, ?_, ?_, ?_⟩
  · intro rs h
    rw [hrun] at h
    have := collectAll_length (lookupSlot history) (List.range taskCount) rs h
    rw [List.length_range] at this
    rw [hello_orchestrator_dispatch_length]
    exact this
  · intro hc
    obtain ⟨rs, hrs⟩ := collectAll_of_all_some (lookupSlot history)
      (List.range taskCount) (fun i hi => hc i (List.mem_range.mp hi))
    have hlen := collectAll_length (lookupSlot history) (List.range taskCount) rs hrs
    rw [List.length_range] at hlen
    refine ⟨rs, by rw [hrun]; exact hrs, ?_, hlen⟩
    rw [hello_orchestrator_dispatch_length]
    exact hlen
  · rintro ⟨i, hi, hnone⟩
    rw [hrun]
    exact collectAll_eq_none (lookupSlot history) (List.range taskCount) i
      (List.mem_range.mpr hi) hnone
  · intro history' hnd hp
    rw [hrun, hrun]
    exact collectAll_congr (List.range taskCount)
      (fun i _ => lookupSlot_perm hp hnd i)

/-- Witness for C1: at the concrete history sampleHistory, in which all 5000
slots have completed, the fan-in yields exactly 5000 results. -/
theorem hello_orchestrator_fan_in_complete_witness :
    ∃ rs, (hello_orchestrator_run sampleHistory).2 = some rs
      ∧ rs.length = hello_orchestrator_dispatch.length ∧ rs.length = 5000 := by
  refine (hello_orchestrator_fan_in_complete sampleHistory).2.1 ?_
  intro i hi
  have hm : (i, TaskResult.success 0) ∈ sampleHistory :=
    List.mem_map.mpr ⟨i, List.mem_range.mpr hi, rfl⟩
  have hnd : (sampleHistory.map Prod.fst).Nodup := by
    have heq : sampleHistory.map Prod.fst = List.range taskCount := by
      simp [sampleHistory, List.map_map, Function.comp_def]
    rw [heq]
    exact List.nodup_range taskCount
  rw [lookupSlot_eq_some_of_mem hnd hm]
  rfl

/-- Claim C2: replaying hello_orchestrator against any two replayed histories
of prior completions yields identical dispatch decisions — the same task
count (5000), the same activity name (heavy_computation), the same inputs
(exactly 0..4999), in the same order. -/
theorem hello_orchestrator_replay_deterministic
    (h1 h2 : List (Nat × TaskResult)) :
    (hello_orchestrator_run h1).1 = (hello_orchestrator_run h2).1
    ∧ ((hello_orchestrator_run h1).1).map TaskCall.input = List.range taskCount
    ∧ ((hello_orchestrator_run h1).1).map TaskCall.activity
        = List.replicate taskCount "heavy_computation"
    ∧ ((hello_orchestrator_run h1).1).length = taskCount
    ∧ taskCount = 5000 := by
  have hfst : ∀ h : List (Nat × TaskResult),
      (hello_orchestrator_run h).1 = hello_orchestrator_dispatch :=
    fun _ => rfl
  refine ⟨(hfst h1).trans (hfst h2).symm, ?_, ?_, ?_, rfl⟩
  · rw [hfst h1]
    simp [hello_orchestrator_dispatch, List.map_map, Function.comp_def]
  · rw [hfst h1]
    simp [hello_orchestrator_dispatch, List.map_map, Function.comp_def,
      List.map_const]
  · rw [hfst h1]
    exact hello_orchestrator_dispatch_length

/-- Claim C3: one invocation of create_message_timer enqueues exactly one
queue message per record whose Status equals New at query time, and every
enqueued message originates from such a record — never from a record whose
Status is Processed. -/
theorem create_message_timer_one_per_new (t : List Entity) :
    (create_message_timer t).length
      = (t.filter (fun e => e.Status == some "New")).length
    ∧ (∀ s ∈ create_message_timer t, ∃ e, e ∈ t ∧ e.Status = some "New"
        ∧ s = encodeQueueMessage (messageJObj e)) := by
  constructor
  · simp only [create_message_timer, create_message_objs, List.length_map,
      queryNewEntities]
    rfl
  · intro s hs
    simp only [create_message_timer, create_message_objs, List.map_map] at hs
    obtain ⟨e, he, rfl⟩ := List.mem_map.mp hs
    have hf := List.mem_filter.mp (by simpa [queryNewEntities] using he)
    exact ⟨e, hf.1, by simpa [isNew] using hf.2, rfl⟩

/-- Witness for C3 at the concrete table sampleTable: the counts agree and
the message of the New record sampleEntityNew originates from a New record. -/
theorem create_message_timer_one_per_new_witness :
    (create_message_timer sampleTable).length
      = (sampleTable.filter (fun e => e.Status == some "New")).length
    ∧ (∃ e, e ∈ sampleTable ∧ e.Status = some "New"
        ∧ encodeQueueMessage (messageJObj sampleEntityNew)
          = encodeQueueMessage (messageJObj e)) :=
  ⟨(create_message_timer_one_per_new sampleTable).1,
    (create_message_timer_one_per_new sampleTable).2
      (encodeQueueMessage (messageJObj sampleEntityNew)) (by decide)⟩

/-- Counterexample to C9 as stated: the message create_message_timer builds
and enqueues for the New record sampleEntityNew carries exactly the keys
PartitionKey, RowKey, BugId and Joke — the key Payload does not occur — so
the claimed key set with Payload is not the wire format. -/
theorem create_message_timer_payload_key_counterexample :
    messageJObj sampleEntityNew ∈ create_message_objs sampleTable
    ∧ jsonKeys (messageJObj sampleEntityNew)
        = ["PartitionKey", "RowKey", "BugId", "Joke"]
    ∧ jsonKeys (messageJObj sampleEntityNew)
        ≠ ["PartitionKey", "RowKey", "BugId", "Payload"]
    ∧ "Payload" ∉ jsonKeys (messageJObj sampleEntityNew) := by
  refine ⟨by decide, by decide, by decide, by decide⟩

/-- Claim C9 (amended): every message create_message_timer enqueues is the
JSON object with exactly the keys PartitionKey, RowKey, BugId and Joke — the
payload field is named Joke, not Payload — serialized with json.dumps,
encoded to UTF-8 bytes and transported base64-encoded. -/
theorem create_message_timer_wire_format (t : List Entity) :
    (∀ m ∈ create_message_objs t,
      jsonKeys m = ["PartitionKey", "RowKey", "BugId", "Joke"])
    ∧ (∀ s ∈ create_message_timer t, ∃ m, m ∈ create_message_objs t
        ∧ s = base64Encode (utf8Encode (jsonDumps m))
        ∧ jsonKeys m = ["PartitionKey", "RowKey", "BugId", "Joke"]) := by
  constructor
  · intro m hm
    obtain ⟨e, _, rfl⟩ := List.mem_map.mp hm
    rfl
  · intro s hs
    obtain ⟨m, hm, rfl⟩ := List.mem_map.mp hs
    refine ⟨m, hm, rfl, ?_⟩
    obtain ⟨e, _, rfl⟩ := List.mem_map.mp hm
    rfl

/-- Witness for C9 (amended) at sampleTable and the enqueued message of
sampleEntityNew. -/
theorem create_message_timer_wire_format_witness :
    jsonKeys (messageJObj sampleEntityNew)
      = ["PartitionKey", "RowKey", "BugId", "Joke"]
    ∧ (∃ m, m ∈ create_message_objs sampleTable
        ∧ encodeQueueMessage (messageJObj sampleEntityNew)
          = base64Encode (utf8Encode (jsonDumps m))
        ∧ jsonKeys m = ["PartitionKey", "RowKey", "BugId", "Joke"]) :=
  ⟨(create_message_timer_wire_format sampleTable).1
      (messageJObj sampleEntityNew) (by decide),
    (create_message_timer_wire_format sampleTable).2
      (encodeQueueMessage (messageJObj sampleEntityNew)) (by decide)⟩

/-- Claim C10: create_message_timer is total over record shape: every record
in status New — even one missing PartitionKey, RowKey, BugId or Joke —
yields its message, with the defaults UnknownPartitionKey, UnknownRowKey,
UnknownBugId, UnknownJoke substituted for missing fields, so every enqueued
message carries all four keys with present string values. -/
theorem create_message_timer_defaults (t : List Entity) (e : Entity)
    (he : e ∈ t) (hnew : e.Status = some "New") :
    messageJObj e ∈ create_message_objs t
    ∧ jsonKeys (messageJObj e) = ["PartitionKey", "RowKey", "BugId", "Joke"]
    ∧ jobjGet (messageJObj e) "PartitionKey"
        = some (e.PartitionKey.getD "UnknownPartitionKey")
    ∧ jobjGet (messageJObj e) "RowKey" = some (e.RowKey.getD "UnknownRowKey")
    ∧ jobjGet (messageJObj e) "BugId" = some (e.BugId.getD "UnknownBugId")
    ∧ jobjGet (messageJObj e) "Joke" = some (e.Joke.getD "UnknownJoke")
    ∧ (∀ k ∈ jsonKeys (messageJObj e), ∃ v, jobjGet (messageJObj e) k = some v) := by
  refine ⟨?_, rfl, rfl, rfl, rfl, rfl, ?_⟩
  · exact List.mem_map_of_mem messageJObj
      (List.mem_filter.mpr ⟨he, by simp [isNew, hnew]⟩)
  · intro k hk
    have hk' : k ∈ ["PartitionKey", "RowKey", "BugId", "Joke"] := hk
    fin_cases hk' <;> exact ⟨_, rfl⟩

/-- Witness for C10 at the record sampleEntityBare, which is in status New
and has no PartitionKey, RowKey, BugId or Joke at all: its message still
carries all four keys, with the defaults. -/
theorem create_message_timer_defaults_witness :
    messageJObj sampleEntityBare ∈ create_message_objs sampleTable
    ∧ jsonKeys (messageJObj sampleEntityBare)
        = ["PartitionKey", "RowKey", "BugId", "Joke"]
    ∧ jobjGet (messageJObj sampleEntityBare) "PartitionKey"
        = some (sampleEntityBare.PartitionKey.getD "UnknownPartitionKey")
    ∧ jobjGet (messageJObj sampleEntityBare) "RowKey"
        = some (sampleEntityBare.RowKey.getD "UnknownRowKey")
    ∧ jobjGet (messageJObj sampleEntityBare) "BugId"
        = some (sampleEntityBare.BugId.getD "UnknownBugId")
    ∧ jobjGet (messageJObj sampleEntityBare) "Joke"
        = some (sampleEntityBare.Joke.getD "UnknownJoke")
    ∧ (∀ k ∈ jsonKeys (messageJObj sampleEntityBare),
        ∃ v, jobjGet (messageJObj sampleEntityBare) k = some v) :=
  create_message_timer_defaults sampleTable sampleEntityBare (by decide) (by decide)

/-- Claim C5: process_message is idempotent: when a delivery of a message
succeeds, a second delivery of the same message against the updated table
succeeds again and leaves the record in the same terminal state — Status
stays Processed and JokeContext is recomputed to the same value by the
deterministic enrichment oracle; every stored record's
(Status, JokeContext) projection is unchanged by the second run. -/
theorem process_message_idempotent (S : Option String → Except String String)
    (now1 now2 : String) (msg : JObj) (t t1 : List Entity)
    (h : process_message S now1 msg t = Except.ok t1) :
    ∃ t2 pk rk, process_message S now2 msg t1 = Except.ok t2
      ∧ jobjGet msg "PartitionKey" = some pk
      ∧ jobjGet msg "RowKey" = some rk
      ∧ statusOf t1 pk rk = some (some "Processed")
      ∧ statusOf t2 pk rk = some (some "Processed")
      ∧ (∀ pk' rk', statusCtx t2 pk' rk' = statusCtx t1 pk' rk') := by
  obtain ⟨pk, rk, e, ctx, hpk, hrk, hfe, hs, ht1⟩ :=
    process_message_ok_shape S now1 msg t t1 h
  subst ht1
  have hkm : keyMatch e (processedEntity e ctx now1) = true := by
    simp [keyMatch, processedEntity]
  have hfind1 : findEntity (updateEntity t (processedEntity e ctx now1)) pk rk
      = some (processedEntity e ctx now1) := by
    rw [findEntity_updateEntity, hfe, Option.map_some', if_pos hkm]
  have hrun2 : process_message S now2 msg
        (updateEntity t (processedEntity e ctx now1))
      = Except.ok (updateEntity (updateEntity t (processedEntity e ctx now1))
          (processedEntity e ctx now2)) := by
    simp only [process_message, hpk, hrk, getEntity, hfind1, hs]
    rfl
  refine ⟨_, pk, rk, hrun2, hpk, hrk, ?_, ?_, ?_⟩
  · unfold statusOf
    rw [hfind1]
    rfl
  · have hkm2 : keyMatch (processedEntity e ctx now1)
        (processedEntity e ctx now2) = true := by
      simp [keyMatch, processedEntity]
    unfold statusOf
    rw [findEntity_updateEntity, hfind1, Option.map_some', if_pos hkm2]
    rfl
  · intro pk' rk'
    unfold statusCtx
    rw [findEntity_updateEntity]
    cases hfx : findEntity (updateEntity t (processedEntity e ctx now1)) pk' rk' with
    | none => rfl
    | some x =>
      rw [Option.map_some', Option.map_some']
      by_cases hkx : keyMatch x (processedEntity e ctx now2) = true
      · have hx : x ∈ updateEntity t (processedEntity e ctx now1) :=
          List.mem_of_find?_eq_some hfx
        have hke1 : keyMatch x (processedEntity e ctx now1) = true := hkx
        have hxe : x = processedEntity e ctx now1 := eq_of_mem_updateEntity hx hke1
        subst hxe
        rw [if_pos hkx]
        rfl
      · rw [if_neg hkx]
        rfl

/-- Witness for C5: the second delivery of sampleMsg against the already
updated one-record table. -/
theorem process_message_idempotent_witness :
    ∃ t2 pk rk, process_message okSummarize "n2" sampleMsg [sampleProcessedEntity]
        = Except.ok t2
      ∧ jobjGet sampleMsg "PartitionKey" = some pk
      ∧ jobjGet sampleMsg "RowKey" = some rk
      ∧ statusOf [sampleProcessedEntity] pk rk = some (some "Processed")
      ∧ statusOf t2 pk rk = some (some "Processed")
      ∧ (∀ pk' rk', statusCtx t2 pk' rk'
          = statusCtx [sampleProcessedEntity] pk' rk') :=
  process_message_idempotent okSummarize "n1" "n2" sampleMsg [sampleEntityNew]
    [sampleProcessedEntity] (by rfl)

/-- Claim C6: if the enrichment call raises during process_message, the
exception propagates before the table write: the delivery yields no updated
table, the effective table is unchanged, and so is every record's stored
Status — the record is left not marked Processed by this delivery. -/
theorem process_message_enrich_failure (S : Option String → Except String String)
    (now : String) (msg : JObj) (t : List Entity) (m : String)
    (hS : S (jobjGet msg "Joke") = Except.error m) :
    processEffect S now msg t = t
    ∧ (∀ t', process_message S now msg t ≠ Except.ok t')
    ∧ (∀ pk rk, statusOf (processEffect S now msg t) pk rk = statusOf t pk rk) := by
  have hproc : ∀ t', process_message S now msg t ≠ Except.ok t' := by
    intro t' hctr
    obtain ⟨pk, rk, e, ctx, hpk, hrk, hfe, hs, ht⟩ :=
      process_message_ok_shape S now msg t t' hctr
    rw [hS] at hs
    cases hs
  have heff : processEffect S now msg t = t := by
    unfold processEffect
    cases hp : process_message S now msg t with
    | ok t' => exact absurd hp (hproc t')
    | error q => rfl
  exact ⟨heff, hproc, fun pk rk => by rw [heff]⟩

/-- Witness for C6: the always-failing enrichment oracle leaves sampleTable
untouched. -/
theorem process_message_enrich_failure_witness :
    processEffect failSummarize "n1" sampleMsg sampleTable = sampleTable
    ∧ (∀ t', process_message failSummarize "n1" sampleMsg sampleTable
        ≠ Except.ok t')
    ∧ (∀ pk rk, statusOf (processEffect failSummarize "n1" sampleMsg sampleTable)
        pk rk = statusOf sampleTable pk rk) :=
  process_message_enrich_failure failSummarize "n1" sampleMsg sampleTable "boom" rfl

/-- Counterexample to C8 as stated: the message sampleMsgMissingKeys lacks
both PartitionKey and RowKey, yet the .get parse of process_message succeeds
with None values and the delivery fails only at the entity lookup, as a
not-found error — not as a ValidationError at parse time. -/
theorem process_message_no_parse_validation :
    jobjGet sampleMsgMissingKeys "PartitionKey" = none
    ∧ jobjGet sampleMsgMissingKeys "RowKey" = none
    ∧ process_message okSummarize "n1" sampleMsgMissingKeys sampleTable
        = Except.error ProcError.notFound
    ∧ process_message okSummarize "n1" sampleMsgMissingKeys sampleTable
        ≠ Except.error ProcError.validationError := by
  refine ⟨rfl, rfl, rfl, ?_⟩
  intro hctr
  have h1 : (Except.error ProcError.notFound : Except ProcError (List Entity))
      = Except.error ProcError.validationError := hctr
  injection h1 with h2
  cases h2

/-- Claim C8 (amended): process_message performs no parse-time validation:
for every message missing the PartitionKey key or the RowKey key, the .get
parse yields None for the missing key, the handler proceeds to the entity
lookup — which can address no stored record — and the delivery fails there
with a not-found error rather than a parse-time ValidationError; no record
mutation occurs and the table is unchanged. -/
theorem process_message_missing_keys (S : Option String → Except String String)
    (now : String) (msg : JObj) (t : List Entity)
    (h : jobjGet msg "PartitionKey" = none ∨ jobjGet msg "RowKey" = none) :
    process_message S now msg t = Except.error ProcError.notFound
    ∧ processEffect S now msg t = t := by
  have hge : getEntity t (jobjGet msg "PartitionKey") (jobjGet msg "RowKey")
      = none := by
    rcases h with h | h
    · rw [h]
      cases jobjGet msg "RowKey" <;> rfl
    · rw [h]
      cases jobjGet msg "PartitionKey" <;> rfl
  have h1 : process_message S now msg t = Except.error ProcError.notFound := by
    simp only [process_message, hge]
  exact ⟨h1, by simp only [processEffect, h1]⟩

/-- Witness for C8 (amended) at the concrete malformed message
sampleMsgMissingKeys. -/
theorem process_message_missing_keys_witness :
    process_message okSummarize "n1" sampleMsgMissingKeys sampleTable
        = Except.error ProcError.notFound
    ∧ processEffect okSummarize "n1" sampleMsgMissingKeys sampleTable
        = sampleTable :=
  process_message_missing_keys okSummarize "n1" sampleMsgMissingKeys sampleTable
    (Or.inl rfl)

/-- Claim C4: across all system operations, under the invariant that every
stored record is New or Processed, a record's Status only ever moves from
New to Processed: every operation preserves the invariant and evolves every
identity's stored status monotonically — unchanged, created as New by the
generator, or flipped from New to Processed by the consumer — and the
producer create_message_timer never writes the table at all. -/
theorem status_transitions_monotone (op : SysOp) (s : SysState)
    (hInv : StatusInv s.table) :
    StatusInv (applyOp op s).table
    ∧ (∀ pk rk, StatusMono (statusOf s.table pk rk)
        (statusOf (applyOp op s).table pk rk))
    ∧ (applyOp SysOp.produceTimer s).table = s.table := by
  have main : StatusInv (applyOp op s).table
      ∧ ∀ pk rk, StatusMono (statusOf s.table pk rk)
          (statusOf (applyOp op s).table pk rk) := by
    cases op with
    | produceTimer =>
      exact ⟨hInv, fun pk rk => Or.inl rfl⟩
    | generate pk0 rks bugIds jokeGen createdAt k =>
      cases hb : genBatch pk0 rks bugIds jokeGen createdAt 0 k with
      | error m =>
        have htab : (applyOp (SysOp.generate pk0 rks bugIds jokeGen createdAt k) s).table
            = s.table := by
          simp [applyOp, genEffect, generate_random_messages, hb]
        rw [htab]
        exact ⟨hInv, fun pk rk => Or.inl rfl⟩
      | ok batch =>
        have htab : (applyOp (SysOp.generate pk0 rks bugIds jokeGen createdAt k) s).table
            = s.table ++ batch := by
          simp [applyOp, genEffect, generate_random_messages, hb]
        have hnew := genBatch_mem_status pk0 rks bugIds jokeGen createdAt k 0 batch hb
        rw [htab]
        constructor
        · intro x hx
          rcases List.mem_append.mp hx with h1 | h1
          · exact hInv x h1
          · exact Or.inl (hnew x h1).1
        · intro pk rk
          unfold statusOf findEntity
          rw [List.find?_append]
          cases hf1 : s.table.find?
              (fun e => e.PartitionKey == some pk && e.RowKey == some rk) with
          | some x =>
            rw [Option.or_some]
            exact Or.inl rfl
          | none =>
            rw [Option.none_or]
            cases hf2 : batch.find?
                (fun e => e.PartitionKey == some pk && e.RowKey == some rk) with
            | none => exact Or.inl rfl
            | some b =>
              have hbmem := List.mem_of_find?_eq_some hf2
              refine Or.inr (Or.inl ⟨rfl, ?_⟩)
              rw [Option.map_some', (hnew b hbmem).1]
    | processMsg S now msg =>
      cases hp : process_message S now msg s.table with
      | error q =>
        have htab : (applyOp (SysOp.processMsg S now msg) s).table = s.table := by
          simp [applyOp, processEffect, hp]
        rw [htab]
        exact ⟨hInv, fun pk rk => Or.inl rfl⟩
      | ok t' =>
        obtain ⟨pk0, rk0, e, ctx, hpk, hrk, hfe, hs2, ht'⟩ :=
          process_message_ok_shape S now msg s.table t' hp
        have htab : (applyOp (SysOp.processMsg S now msg) s).table = t' := by
          simp [applyOp, processEffect, hp]
        rw [htab, ht']
        constructor
        · intro x hx
          rcases mem_updateEntity_cases hx with h1 | h1
          · subst h1
            exact Or.inr rfl
          · exact hInv x h1
        · intro pk rk
          unfold statusOf
          rw [findEntity_updateEntity]
          cases hfx : findEntity s.table pk rk with
          | none => exact Or.inl rfl
          | some x =>
            rw [Option.map_some', Option.map_some']
            by_cases hkx : keyMatch x (processedEntity e ctx now) = true
            · rw [if_pos hkx]
              have hxmem : x ∈ s.table := List.mem_of_find?_eq_some hfx
              rcases hInv x hxmem with hN | hP
              · exact Or.inr (Or.inr ⟨by rw [hN], rfl⟩)
              · refine Or.inl ?_
                rw [hP]
                rfl
            · rw [if_neg hkx]
              exact Or.inl rfl
  exact ⟨main.1, main.2, rfl⟩

/-- Witness for C4: one consumer delivery of sampleMsg against the system
state holding sampleTable. -/
theorem status_transitions_monotone_witness :
    StatusInv (applyOp (SysOp.processMsg okSummarize "n1" sampleMsg)
        (SysState.mk sampleTable [])).table
    ∧ (∀ pk rk, StatusMono (statusOf (SysState.mk sampleTable []).table pk rk)
        (statusOf (applyOp (SysOp.processMsg okSummarize "n1" sampleMsg)
          (SysState.mk sampleTable [])).table pk rk))
    ∧ (applyOp SysOp.produceTimer (SysState.mk sampleTable [])).table
        = (SysState.mk sampleTable []).table :=
  status_transitions_monotone (SysOp.processMsg okSummarize "n1" sampleMsg)
    (SysState.mk sampleTable []) (by unfold StatusInv; decide)

/-- Claim C7: one generate_random_messages invocation with configured count
k creates exactly k records — each in status New with its own supplied fresh
RowKey, all sharing the single invocation-wide partition key — appended to
the table in one atomic all-or-nothing batch; and if the generative joke
call fails for any item, the whole invocation fails and no records are
written. -/
theorem generate_random_messages_batch (pk : String) (rks bugIds : Nat → String)
    (jokeGen : Nat → Except String String) (createdAt : String) (k : Nat)
    (t : List Entity) :
    ((∀ i, i < k → ∃ v, jokeGen i = Except.ok v) →
      ∃ batch, generate_random_messages pk rks bugIds jokeGen createdAt k t
          = Except.ok (t ++ batch)
        ∧ batch.length = k
        ∧ batch.map Entity.Status = List.replicate k (some "New")
        ∧ batch.map Entity.PartitionKey = List.replicate k (some pk)
        ∧ batch.map Entity.RowKey = (List.range k).map (fun i => some (rks i))
        ∧ ((∀ i j, i < k → j < k → rks i = rks j → i = j) →
            (batch.map Entity.RowKey).Nodup))
    ∧ ((∃ i, i < k ∧ ∀ v, jokeGen i ≠ Except.ok v) →
      (∃ m, generate_random_messages pk rks bugIds jokeGen createdAt k t
          = Except.error m)
        ∧ genEffect pk rks bugIds jokeGen createdAt k t = t) := by
  constructor
  · intro hok
    obtain ⟨batch, hb, hlen, hst, hpk, hrk⟩ :=
      genBatch_ok_spec pk rks bugIds jokeGen createdAt k 0
        (fun j hj => by simpa using hok j hj)
    have hrange : (List.range' 0 k).map (fun j => some (rks j))
        = (List.range k).map (fun i => some (rks i)) := by
      rw [List.range_eq_range']
    refine ⟨batch, ?_, hlen, hst, hpk, ?_, ?_⟩
    · simp [generate_random_messages, hb]
    · rw [hrk, hrange]
    · intro hinj
      rw [hrk, hrange]
      refine List.Nodup.map_on ?_ (List.nodup_range k)
      intro i hi j hj hij
      exact hinj i j (List.mem_range.mp hi) (List.mem_range.mp hj)
        (Option.some.inj hij)
  · rintro ⟨i, hi, hfail⟩
    obtain ⟨m, hm⟩ := genBatch_err pk rks bugIds jokeGen createdAt k 0
      ⟨i, hi, fun v hv => hfail v (by simpa using hv)⟩
    refine ⟨⟨m, ?_⟩, ?_⟩
    · simp [generate_random_messages, hm]
    · simp [genEffect, generate_random_messages, hm]

/-- Witness for C7 at count 2: the success path with sampleJokeGen and the
failure path with failJokeGen. -/
theorem generate_random_messages_batch_witness :
    (∃ batch, generate_random_messages "pkA" sampleRks sampleBugIds
          sampleJokeGen "c0" 2 [] = Except.ok ([] ++ batch)
      ∧ batch.length = 2
      ∧ batch.map Entity.Status = List.replicate 2 (some "New")
      ∧ batch.map Entity.PartitionKey = List.replicate 2 (some "pkA")
      ∧ batch.map Entity.RowKey = (List.range 2).map (fun i => some (sampleRks i))
      ∧ ((∀ i j, i < 2 → j < 2 → sampleRks i = sampleRks j → i = j) →
          (batch.map Entity.RowKey).Nodup))
    ∧ ((∃ m, generate_random_messages "pkA" sampleRks sampleBugIds
          failJokeGen "c0" 2 [] = Except.error m)
      ∧ genEffect "pkA" sampleRks sampleBugIds failJokeGen "c0" 2 [] = []) :=
  ⟨(generate_random_messages_batch "pkA" sampleRks sampleBugIds sampleJokeGen
      "c0" 2 []).1 (fun i hi => ⟨"haha", rfl⟩),
   (generate_random_messages_batch "pkA" sampleRks sampleBugIds failJokeGen
      "c0" 2 []).2 ⟨1, by omega, fun v hv => by simp [failJokeGen] at hv⟩⟩
